import Mathlib

/-!
Verification development for the openQDC normalization-and-caching layer.

The Python sources (openqdc/utils/io.py, openqdc/datasets/potential/gdml.py,
openqdc/datasets/potential/revmd17.py, openqdc/datasets/interaction/metcalf.py)
are shallowly embedded below: pure helpers become Lean functions, filesystem
and object-store state is passed explicitly through a `Sys` record, numpy
arrays become lists of rationals together with explicit shape information, and
fallible Python code returns `Except PyErr`.
-/

set_option autoImplicit false

deriving instance DecidableEq for Except

namespace OpenQDC

/-- Python exception values raised (or named by the specification) in the code
paths modelled here.  The constructors `remoteObjectMissingError` and
`rawSourceMissingError` are the dedicated error types named by the
specification; the source code never constructs them, which is exactly what
several claims are about. -/
inductive PyErr where
  | fileNotFoundError (msg : String)
  | fileExistsError (msg : String)
  | valueError (msg : String)
  | indexError (msg : String)
  | keyError (msg : String)
  | typeError (msg : String)
  | remoteObjectMissingError (msg : String)
  | rawSourceMissingError (msg : String)
  deriving DecidableEq

/-- Is this error the dedicated remote-miss error named by the specification? -/
def PyErr.isRemoteObjectMissing : PyErr → Bool
  | .remoteObjectMissingError _ => true
  | _ => false

/-- Is this error the dedicated raw-source-miss error named by the specification? -/
def PyErr.isRawSourceMissing : PyErr → Bool
  | .rawSourceMissingError _ => true
  | _ => false

/-- Map a partial function over a list, failing when any element fails. -/
def mapOption {α β : Type} (f : α → Option β) : List α → Option (List β)
  | [] => some []
  | a :: l =>
      match f a, mapOption f l with
      | some b, some bs => some (b :: bs)
      | _, _ => none

/-- Map a fallible function over a list, surfacing the first error. -/
def mapExcept {α β : Type} (f : α → Except PyErr β) : List α → Except PyErr (List β)
  | [] => .ok []
  | a :: l =>
      match f a with
      | .error e => .error e
      | .ok b =>
          match mapExcept f l with
          | .error e => .error e
          | .ok bs => .ok (b :: bs)

/-! ## Python string and path primitives -/

/-- Worker for Python `str.replace`: scans the text left to right, replacing
each non-overlapping occurrence of `pat` by `rep`.  The `Nat` argument is the
number of characters of an already-replaced occurrence that remain to be
skipped without rescanning, which keeps the recursion structural. -/
def replaceAllAux (pat rep : List Char) : List Char → Nat → List Char
  | [], _ => []
  | _ :: cs, Nat.succ k => replaceAllAux pat rep cs k
  | c :: cs, 0 =>
      if pat ≠ [] ∧ pat.isPrefixOf (c :: cs) then
        rep ++ replaceAllAux pat rep cs (pat.length - 1)
      else c :: replaceAllAux pat rep cs 0

/-- Python `s.replace(pat, rep)`: every non-overlapping occurrence of `pat` in
`s` is replaced by `rep`, scanning left to right.  An empty pattern inserts
`rep` at every character boundary, as in Python. -/
def pyReplace (s pat rep : String) : String :=
  if pat.data = [] then ⟨rep.data ++ s.data.flatMap (fun c => c :: rep.data)⟩
  else ⟨replaceAllAux pat.data rep.data s.data 0⟩

/-- `containsSub pat l` holds when `pat` occurs as a contiguous sublist of `l`. -/
def containsSub (pat : List Char) : List Char → Bool
  | [] => decide (pat = [])
  | c :: cs => pat.isPrefixOf (c :: cs) || containsSub pat cs

/-- Python `s.startswith(pre)` (structural implementation). -/
def pyStartsWith (s pre : String) : Bool :=
  pre.data.isPrefixOf s.data

/-- Python `s.endswith(suf)` (structural implementation). -/
def pyEndsWith (s suf : String) : Bool :=
  suf.data.isSuffixOf s.data

/-- Worker for Python `str.split(sep)` with a non-empty separator; the `Nat`
argument counts separator characters still to be skipped after a match. -/
def splitOnAux (sep : List Char) : List Char → List Char → Nat → List (List Char)
  | [], acc, _ => [acc.reverse]
  | _ :: cs, acc, Nat.succ k => splitOnAux sep cs acc k
  | c :: cs, acc, 0 =>
      if sep ≠ [] ∧ sep.isPrefixOf (c :: cs) then
        acc.reverse :: splitOnAux sep cs [] (sep.length - 1)
      else splitOnAux sep cs (c :: acc) 0

/-- Python `s.split(sep)` for a non-empty separator: the pieces between
non-overlapping left-to-right separator occurrences, empty pieces kept. -/
def pySplitOn (s sep : String) : List String :=
  (splitOnAux sep.data s.data [] 0).map (fun l => ⟨l⟩)

/-- Split at every character satisfying the predicate, keeping empty pieces. -/
def splitPredAux (p : Char → Bool) : List Char → List Char → List (List Char)
  | [], acc => [acc.reverse]
  | c :: cs, acc =>
      if p c then acc.reverse :: splitPredAux p cs []
      else splitPredAux p cs (c :: acc)

/-- Split a string at every character satisfying the predicate. -/
def pySplitPred (s : String) (p : Char → Bool) : List String :=
  (splitPredAux p s.data []).map (fun l => ⟨l⟩)

/-- Join strings with a separator (structural implementation). -/
def joinSep (sep : String) : List String → String
  | [] => ""
  | x :: xs => xs.foldl (fun a b => a ++ sep ++ b) x

/-- Everything up to and including the last slash of the character list
(empty when there is no slash): Python `p[:p.rfind('/') + 1]`. -/
def keepThroughLastSlash (l : List Char) : List Char :=
  ((l.reverse.dropWhile (fun c => c ≠ '/')).reverse)

/-- Remove trailing slashes. -/
def rstripSlashes (l : List Char) : List Char :=
  ((l.reverse.dropWhile (fun c => c = '/')).reverse)

/-- Python `os.path.dirname` for POSIX paths: keep everything before the last
slash, then strip trailing slashes unless the head consists only of slashes. -/
def pyDirname (p : String) : String :=
  let head := keepThroughLastSlash p.data
  if head ≠ [] ∧ ¬ (head.all (fun c => c = '/')) then ⟨rstripSlashes head⟩
  else ⟨head⟩

/-- Python `os.path.join` for POSIX paths, two arguments. -/
def pyJoin (a b : String) : String :=
  if pyStartsWith b "/" then b
  else if a = "" ∨ pyEndsWith a "/" then a ++ b
  else a ++ "/" ++ b

/-- Python `os.path.normpath` for POSIX paths: collapse repeated slashes,
drop single dots, resolve double dots, preserving up to two leading slashes. -/
def pyNormpath (p : String) : String :=
  if p = "" then "." else
  let initialSlashes : Nat :=
    if pyStartsWith p "/" then
      (if pyStartsWith p "//" ∧ ¬ pyStartsWith p "///" then 2 else 1)
    else 0
  let comps := pySplitOn p "/"
  let newComps := comps.foldl (fun acc comp =>
      if comp = "" ∨ comp = "." then acc
      else if comp ≠ ".." ∨ (initialSlashes = 0 ∧ acc = []) ∨ acc.getLast? = some ".." then
        acc ++ [comp]
      else if acc ≠ [] then acc.dropLast
      else acc) []
  let joined := joinSep "/" newComps
  let out : String := ⟨List.replicate initialSlashes '/' ++ joined.data⟩
  if out = "" then "." else out

/-- Characters allowed in a bare `$name` environment reference. -/
def isVarChar (c : Char) : Bool :=
  c.isAlphanum || c = '_'

/-- Worker for Python `os.path.expandvars`, with explicit fuel (one unit per
consumed character suffices, so the wrapper passes the input length). -/
def expandVarsAux (env : String → Option String) : Nat → List Char → List Char
  | 0, l => l
  | Nat.succ fuel, l =>
    match l with
    | [] => []
    | '$' :: '{' :: rest =>
        let name := rest.takeWhile (fun c => c ≠ '}')
        match rest.dropWhile (fun c => c ≠ '}') with
        | '}' :: rest2 =>
            (match env ⟨name⟩ with
             | some v => v.data ++ expandVarsAux env fuel rest2
             | none => '$' :: '{' :: (name ++ '}' :: expandVarsAux env fuel rest2))
        | _ => '$' :: '{' :: rest
    | '$' :: rest =>
        let name := rest.takeWhile isVarChar
        if name = [] then '$' :: expandVarsAux env fuel rest
        else
          (match env ⟨name⟩ with
           | some v => v.data ++ expandVarsAux env fuel (rest.drop name.length)
           | none => '$' :: (name ++ expandVarsAux env fuel (rest.drop name.length)))
    | c :: rest => c :: expandVarsAux env fuel rest

/-- Python `os.path.expandvars`: substitute set environment variables for
well-formed dollar or dollar-brace references, leaving unset or malformed
references untouched. -/
def pyExpandvars (env : String → Option String) (s : String) : String :=
  ⟨expandVarsAux env (s.data.length + 1) s.data⟩

/-! ## The two-tier store state -/

/-- A pandas-like per-record view of the flattened HDF5 archive contents, as
consumed by `extract_entry`: `df[column][i]` accesses.  Scalar-valued and
array-valued column reads are separated by type. -/
structure DF where
  /-- `df["symbols"][i]`: element symbols of record `i`. -/
  symbols : Nat → List String
  /-- `df["geometry"][i]`: flat coordinate buffer of record `i`, reshaped `(-1, 3)`. -/
  geometry : Nat → List ℚ
  /-- `df["name"][i]`. -/
  nameCol : Nat → String
  /-- `df[k][i]` read as a scalar (energy target columns). -/
  num : String → Nat → ℚ
  /-- `df[k][i]` read as a flat array (force target columns); a record that
  supplies no data for a column holds the empty array. -/
  arr : String → Nat → List ℚ

/-- Parsed contents of one HDF5 archive after the flattening
`data_t = {k2: data[k1][k2][:] ...}` performed by `read_qc_archive_h5`. -/
structure H5Content where
  df : DF
  /-- `data_t["molecule_id"]`; its length is the record count. -/
  moleculeId : List Nat

/-- Contents of a file: either an opaque byte blob or a parsed HDF5 archive. -/
inductive FileVal where
  | blob (content : String)
  | h5 (content : H5Content)

/-- The explicit state threaded through the cache-manager functions: the
process-wide cache-directory configuration, the environment, and the local
filesystem and remote object store (files and directories kept separately). -/
structure Sys where
  /-- The module-level `_OPENQDC_CACHE_DIR` value. -/
  cacheDirVar : String
  /-- Environment variables. -/
  env : String → Option String
  /-- Home directory from the password database, used by `expanduser` when
  `HOME` is unset. -/
  pwHome : String
  /-- Home directories of named users, for tilde-name expansion. -/
  users : String → Option String
  localFiles : String → Option FileVal
  localDirs : String → Bool
  remoteFiles : String → Option FileVal
  remoteDirs : String → Bool

/-- Python `os.path.expanduser` for POSIX paths. -/
def pyExpanduser (s : Sys) (path : String) : String :=
  if ¬ pyStartsWith path "~" then path
  else
    let tail := path.data.drop 1
    let userPart := tail.takeWhile (fun c => c ≠ '/')
    let rest : List Char := tail.drop userPart.length
    let userhome? : Option String :=
      if userPart = [] then
        some (match s.env "HOME" with | some h => h | none => s.pwHome)
      else s.users ⟨userPart⟩
    match userhome? with
    | none => path
    | some uh =>
        let r : String := ⟨rstripSlashes uh.data ++ rest⟩
        if r = "" then "/" else r

/-- The string value `get_local_cache` returns: the configured cache-directory
variable with environment variables and a leading tilde expanded. -/
def resolveCache (s : Sys) : String :=
  pyExpanduser s (pyExpandvars s.env s.cacheDirVar)

/-- The module-level initializer of `_OPENQDC_CACHE_DIR`: the fixed fallback
when `OPENQDC_CACHE_DIR` is unset, otherwise the normalized variable value. -/
def initCacheDirVar (env : String → Option String) : String :=
  match env "OPENQDC_CACHE_DIR" with
  | none => "~/.cache/openqdc"
  | some v => pyNormpath v

/-- `set_cache_dir`: a `None` argument is ignored; otherwise the tilde-expanded,
normalized path replaces the configured value. -/
def set_cache_dir (s : Sys) (d : Option String) : Sys :=
  match d with
  | none => s
  | some d => { s with cacheDirVar := pyNormpath (pyExpanduser s d) }

/-- The chain of ancestors a recursive directory creation materializes,
computed with explicit fuel (each `dirname` step shortens the path). -/
def dirChainAux : Nat → String → List String
  | 0, p => [p]
  | Nat.succ k, p =>
      let d := pyDirname p
      if d = p ∨ d = "" then [p] else p :: dirChainAux k d

/-- All directories `os.makedirs` would create for `p`. -/
def dirChain (p : String) : List String := dirChainAux p.length p

/-- Mark a list of directories as existing. -/
def addDirs (dirs : String → Bool) (l : List String) : String → Bool :=
  fun q => dirs q || l.contains q

/-- `os.makedirs(path, exist_ok=...)` over an explicit filesystem: an existing
directory is an error only when `exist_ok` is false; a file in the way is
always an error; otherwise the path and its missing ancestors are created. -/
def osMakedirs (files : String → Option FileVal) (dirs : String → Bool)
    (path : String) (exist_ok : Bool) : Except PyErr (String → Bool) :=
  if dirs path then
    if exist_ok then .ok dirs else .error (.fileExistsError path)
  else if (files path).isSome then .error (.fileExistsError path)
  else .ok (addDirs dirs (dirChain path))

/-- `get_remote_cache(write_access)`: the two remote base URIs. -/
def get_remote_cache (write_access : Bool) : String :=
  if write_access then "gs://qmdata-public/openqdc"
  else "https://storage.googleapis.com/qmdata-public/openqdc"

/-- `get_local_cache()`: resolve the configured cache directory, create it if
missing, and return it. -/
def get_local_cache (s : Sys) : Except PyErr (Sys × String) :=
  let cache_dir := resolveCache s
  match osMakedirs s.localFiles s.localDirs cache_dir true with
  | .error e => .error e
  | .ok d => .ok ({ s with localDirs := d }, cache_dir)

/-- `os.path.exists` on the local filesystem (true for files and directories). -/
def checkFileExists (s : Sys) (p : String) : Bool :=
  (s.localFiles p).isSome || s.localDirs p

/-- `gcp_filesys.exists` / `gcp_filesys_public.exists` on the object store. -/
def remoteExists (s : Sys) (p : String) : Bool :=
  (s.remoteFiles p).isSome || s.remoteDirs p

/-- The remote path computed inline by `pull_locally`, `push_remote` and
`copy_exists`: `local_path.replace(get_local_cache(), get_remote_cache(...))`. -/
def remote_path_of (s : Sys) (local_path : String) (write_access : Bool) : String :=
  pyReplace local_path (resolveCache s) (get_remote_cache write_access)

/-- `pull_locally(local_path, overwrite)`: resolve the remote twin path, make
the parent directory, and fetch the remote object unless a local copy already
exists and `overwrite` is false.  The transport `get_file` of the public
filesystem raises the builtin file-not-found error on a missing remote object. -/
def pull_locally (s : Sys) (local_path : String) (overwrite : Bool) :
    Except PyErr (Sys × String) :=
  match get_local_cache s with
  | .error e => .error e
  | .ok (s1, cache) =>
    let remote_path := pyReplace local_path cache (get_remote_cache false)
    match osMakedirs s1.localFiles s1.localDirs (pyDirname local_path) true with
    | .error e => .error e
    | .ok d =>
      let s2 := { s1 with localDirs := d }
      if ¬ checkFileExists s2 local_path || overwrite then
        match s2.remoteFiles remote_path with
        | none => .error (.fileNotFoundError remote_path)
        | some v =>
            .ok ({ s2 with
                    localFiles := fun q => if q = local_path then some v else s2.localFiles q },
                 local_path)
      else .ok (s2, local_path)

/-- `push_remote(local_path, overwrite)`: resolve the remote twin path (under
the authenticated root exactly when `overwrite` is true, as in the source),
create the remote parent directory with `exist_ok=False` as the source does,
then upload unless the destination exists and `overwrite` is false. -/
def push_remote (s : Sys) (local_path : String) (overwrite : Bool) :
    Except PyErr (Sys × String) :=
  match get_local_cache s with
  | .error e => .error e
  | .ok (s1, cache) =>
    let remote_path := pyReplace local_path cache (get_remote_cache overwrite)
    match osMakedirs s1.remoteFiles s1.remoteDirs (pyDirname remote_path) false with
    | .error e => .error e
    | .ok d =>
      let s2 := { s1 with remoteDirs := d }
      if ¬ remoteExists s2 remote_path || overwrite then
        match s2.localFiles local_path with
        | none => .error (.fileNotFoundError local_path)
        | some v =>
            .ok ({ s2 with
                    remoteFiles := fun q => if q = remote_path then some v else s2.remoteFiles q },
                 remote_path)
      else .ok (s2, remote_path)

/-- `copy_exists(local_path)`: a local file or a remote twin object exists. -/
def copy_exists (s : Sys) (local_path : String) : Except PyErr (Sys × Bool) :=
  match get_local_cache s with
  | .error e => .error e
  | .ok (s1, cache) =>
    let remote_path := pyReplace local_path cache (get_remote_cache false)
    .ok (s1, checkFileExists s1 local_path || remoteExists s1 remote_path)

/-! ## Adapter record construction (`extract_entry` and friends) -/

/-- A float32 cell that is either a number or the not-a-number sentinel. -/
inductive F32 where
  | nan
  | val (q : ℚ)
  deriving DecidableEq

/-- External periodic-table lookup (`atom_table.GetAtomicNumber` via rdkit),
restricted to the elements exercised here; an unrecognized symbol raises. -/
def atomicNumberOf (s : String) : Option Nat :=
  match s with
  | "H" => some 1 | "He" => some 2 | "Li" => some 3 | "Be" => some 4 | "B" => some 5
  | "C" => some 6 | "N" => some 7 | "O" => some 8 | "F" => some 9 | "Ne" => some 10
  | "Na" => some 11 | "Mg" => some 12 | "P" => some 15 | "S" => some 16 | "Cl" => some 17
  | "K" => some 19 | "Ca" => some 20 | "Br" => some 35 | "I" => some 53
  | _ => none

/-- Symbol of an atomic number, partial inverse of `atomicNumberOf`. -/
def symbolOf (z : Nat) : String :=
  match z with
  | 1 => "H" | 2 => "He" | 5 => "B" | 6 => "C" | 7 => "N" | 8 => "O" | 9 => "F"
  | 15 => "P" | 16 => "S" | 17 => "Cl" | 35 => "Br" | 53 => "I"
  | _ => "X"

/-- Modelled from the spec: `z_to_formula` lives in `openqdc.utils.molecule`,
which is not among the given sources, and the spec does not describe it beyond
its use as a fallback subset label; it is modelled as a chemical-formula label
built from the atomic numbers.  No claim depends on its exact output. -/
def z_to_formula (z : List Nat) : String :=
  joinSep "" (z.dedup.map (fun zi =>
    let c := z.count zi
    symbolOf zi ++ (if c = 1 then "" else toString c)))

/-- numpy `reshape((-1, 3))` of a flat buffer: rows of three, failing when the
length is not a multiple of three. -/
def chunk3 : List ℚ → Option (List (List ℚ))
  | [] => some []
  | a :: b :: c :: rest => (chunk3 rest).map (fun rows => [a, b, c] :: rows)
  | _ => none

/-- numpy `concatenate(  , axis=-1)` of two row lists: requires equal row
counts, then concatenates row-wise. -/
def concatRows (xs ys : List (List ℚ)) : Except PyErr (List (List ℚ)) :=
  if xs.length = ys.length then .ok (List.zipWith (fun a b => a ++ b) xs ys)
  else .error (.valueError "concatenate: all the input array dimensions must match")

/-- Python `enumerate` starting at `i`. -/
def pyEnum {α : Type} : Nat → List α → List (Nat × α)
  | _, [] => []
  | i, a :: l => (i, a) :: pyEnum (i + 1) l

/-- numpy broadcast of a `(r, 3)` block into an `(n, 3)` destination slice:
allowed when `r = n` or `r = 1` (row repetition), an error otherwise. -/
def broadcastRows (n : Nat) (rows : List (List ℚ)) : Option (List (List ℚ)) :=
  if rows.length = n then some rows
  else if rows.length = 1 then some (List.replicate n (rows.getD 0 []))
  else none

/-- Assignment `forces[:, :, j] = rows` on the functional force cube. -/
def updateSlice (f : Nat → Nat → Nat → F32) (j : Nat) (rows : List (List ℚ)) :
    Nat → Nat → Nat → F32 :=
  fun a c j2 => if j2 = j then F32.val ((rows.getD a []).getD c 0) else f a c j2

/-- The `for j, k in enumerate(force_target_names)` loop of `extract_entry`:
slices whose column holds data are overwritten, empty columns are skipped,
leaving the NaN initialization in place. -/
def fillForces (d : DF) (i n : Nat) :
    List (Nat × String) → (Nat → Nat → Nat → F32) →
    Except PyErr (Nat → Nat → Nat → F32)
  | [], f => .ok f
  | (j, k) :: rest, f =>
      let dat := d.arr k i
      if dat.length ≠ 0 then
        match chunk3 dat with
        | none => .error (.valueError "cannot reshape array")
        | some rows =>
          match broadcastRows n rows with
          | none => .error (.valueError "could not broadcast input array")
          | some rows2 => fillForces d i n rest (updateSlice f j rows2)
      else fillForces d i n rest f

/-- Materialize the functional force cube into an `(n, 3, m)` nested list. -/
def matForces (n m : Nat) (f : Nat → Nat → Nat → F32) : List (List (List F32)) :=
  (List.range n).map (fun a => (List.range 3).map (fun c => (List.range m).map (fun j => f a c j)))

/-- One unified per-molecule record as produced by `extract_entry`. -/
structure Entry where
  name : String
  subset : String
  energies : List ℚ
  atomic_inputs : List (List ℚ)
  n_atoms : List Nat
  forces : Option (List (List (List F32)))
  deriving DecidableEq

/-- `extract_entry(df, i, subset, energy_target_names, force_target_names)`:
build the unified record of record `i`.  The `None` and empty cases of
`force_target_names` behave identically in the source and are merged here. -/
def extract_entry (d : DF) (i : Nat) (subset : Option String)
    (energy_target_names force_target_names : List String) : Except PyErr Entry :=
  match mapOption atomicNumberOf (d.symbols i) with
  | none => .error (.valueError "unrecognized element symbol")
  | some z =>
    match chunk3 (d.geometry i) with
    | none => .error (.valueError "cannot reshape geometry")
    | some positions =>
      match concatRows (z.map (fun zi => [(Nat.cast zi : ℚ), 0])) positions with
      | .error e => .error e
      | .ok atomic_inputs =>
        if force_target_names ≠ [] then
          match fillForces d i z.length (pyEnum 0 force_target_names)
              (fun _ _ _ => F32.nan) with
          | .error e => .error e
          | .ok f =>
              .ok { name := d.nameCol i
                    subset := match subset with | some ss => ss | none => z_to_formula z
                    energies := energy_target_names.map (fun k => d.num k i)
                    atomic_inputs := atomic_inputs
                    n_atoms := [z.length]
                    forces := some (matForces z.length force_target_names.length f) }
        else
          .ok { name := d.nameCol i
                subset := match subset with | some ss => ss | none => z_to_formula z
                energies := energy_target_names.map (fun k => d.num k i)
                atomic_inputs := atomic_inputs
                n_atoms := [z.length]
                forces := none }

/-- `load_hdf5_file`: an explicit existence check producing the builtin
file-not-found error, then the parsed archive contents. -/
def load_hdf5_file (s : Sys) (path : String) : Except PyErr H5Content :=
  if ¬ checkFileExists s path then
    .error (.fileNotFoundError ("File " ++ path ++ " does not exist on GCS and local."))
  else
    match s.localFiles path with
    | some (.h5 c) => .ok c
    | _ => .error (.valueError "unable to open file")

/-- `read_qc_archive_h5`: load the archive and extract every record. -/
def read_qc_archive_h5 (s : Sys) (raw_path : String) (subset : String)
    (energy_target_names force_target_names : List String) : Except PyErr (List Entry) :=
  match load_hdf5_file s raw_path with
  | .error e => .error e
  | .ok dat =>
    mapExcept
      (fun i => extract_entry dat.df i (some subset) energy_target_names force_target_names)
      (List.range dat.moleculeId.length)

/-- Static declaration of the GDML adapter. -/
def gdml_energy_target_names : List String :=
  ["CCSD Energy", "CCSD(T) Energy", "PBE-TS Energy"]

/-- Static declaration of the GDML adapter. -/
def gdml_force_target_names : List String :=
  ["CCSD Gradient", "CCSD(T) Gradient", "PBE-TS Gradient"]

/-- `GDML.read_raw_entries`: read the unified records from `root/gdml.h5.gz`. -/
def GDML_read_raw_entries (s : Sys) (root : String) : Except PyErr (List Entry) :=
  read_qc_archive_h5 s (pyJoin root "gdml.h5.gz") "gdml"
    gdml_energy_target_names gdml_force_target_names

/-! ## The revMD17 adapter (npz trajectories) -/

/-- A numpy array as stored in an npz archive: flat data plus a shape. -/
structure Arr where
  data : List ℚ
  shape : List Nat
  deriving DecidableEq

/-- The four arrays read out of one rmd17 npz archive. -/
structure Npz where
  nuclear_charges : Arr
  coords : Arr
  energies : Arr
  forces : Arr
  deriving DecidableEq

/-- The `trajectories` table of `revmd17.py` (trajectory name to SMILES). -/
def trajectoriesList : List (String × String) :=
  [("rmd17_aspirin", "CC(=O)OC1=CC=CC=C1C(=O)O"),
   ("rmd17_benzene", "c1ccccc1"),
   ("rmd17_malonaldehyde", "C(C=O)C=O"),
   ("rmd17_paracetamol", "CC(=O)Nc1ccc(cc1)O"),
   ("rmd17_toluene", "Cc1ccccc1"),
   ("rmd17_azobenzene", "C1=CC=C(C=C1)N=NC2=CC=CC=C2"),
   ("rmd17_ethanol", "CCO"),
   ("rmd17_naphthalene", "C1=CC=C2C=CC=CC2=C1"),
   ("rmd17_salicylic", "C1=CC=C(C(=C1)C(=O)O)O"),
   ("rmd17_uracil", "C1=CNC(=O)NC1=O")]

/-- Dictionary lookup in the `trajectories` table. -/
def trajectories (k : String) : Option String :=
  trajectoriesList.lookup k

/-- `create_path(filename, root)` of `revmd17.py`. -/
def create_path (filename root : String) : String :=
  pyJoin (pyJoin (pyJoin root "rmd17") "npz_data") (filename ++ ".npz")

/-- `shape_atom_inputs(coords, atom_species)`: reshape the coordinates to
rows of three, tile the species over the frames, pair each with a zero
formal charge, and concatenate along the last axis.  A non-1-D species array
makes the final `concatenate` fail on mismatched dimensions, which is the
error produced in the wildcard shape branch. -/
def shape_atom_inputs (coords : Arr) (atom_species : Arr) :
    Except PyErr (List (List ℚ)) :=
  match chunk3 coords.data with
  | none => .error (.valueError "cannot reshape coords")
  | some reshaped_coords =>
    match coords.shape with
    | [f, _, _] =>
      match atom_species.shape with
      | [_] =>
        let z := (List.replicate f atom_species.data).flatten
        let xs := z.map (fun zi => [zi, (0 : ℚ)])
        concatRows xs reshaped_coords
      | _ => .error (.valueError "concatenate: input arrays must have the same number of dimensions")
    | _ => .error (.valueError "not enough values to unpack")

/-- One revMD17 per-trajectory record as produced by `read_npz_entry`. -/
structure RevEntry where
  name : List String
  subset : List String
  energies : Arr
  forces : List (List (List ℚ))
  atomic_inputs : List (List ℚ)
  n_atoms : List Nat
  deriving DecidableEq

/-- `read_npz_entry(filename, root)`: load the npz archive from
`create_path`, then build the record, evaluating the dictionary fields in
source order (name, subset, energies, forces, atomic inputs, atom counts). -/
def read_npz_entry (filename root : String) (npzStore : String → Option Npz) :
    Except PyErr RevEntry :=
  match npzStore (create_path filename root) with
  | none => .error (.fileNotFoundError (create_path filename root))
  | some dat =>
    match dat.coords.shape with
    | [] => .error (.indexError "tuple index out of range")
    | f :: _ =>
      match trajectories filename with
      | none => .error (.keyError filename)
      | some traj =>
        match dat.energies.shape with
        | [] => .error (.indexError "too many indices for array")
        | e0 :: erest =>
          match chunk3 dat.forces.data with
          | none => .error (.valueError "cannot reshape forces")
          | some frows =>
            match shape_atom_inputs dat.coords dat.nuclear_charges with
            | .error e => .error e
            | .ok atomic_inputs =>
              match dat.nuclear_charges.shape with
              | [] => .error (.typeError "len of unsized object")
              | m :: _ =>
                .ok { name := List.replicate f traj
                      subset := List.replicate f filename
                      energies := { data := dat.energies.data, shape := e0 :: 1 :: erest }
                      forces := frows.map (fun r => r.map (fun q => [q]))
                      atomic_inputs := atomic_inputs
                      n_atoms := List.replicate f m }

/-! ## The Metcalf adapter (xyz text records) -/

/-- Strip leading and trailing whitespace, as Python `str.strip()`. -/
def pyStrip (s : String) : String :=
  ⟨((s.data.dropWhile Char.isWhitespace).reverse.dropWhile Char.isWhitespace).reverse⟩

/-- Value of a digit string. -/
def digitsToNat (l : List Char) : Nat :=
  l.foldl (fun a c => a * 10 + (c.toNat - 48)) 0

/-- Does `l` consist of one or more decimal digits? -/
def allDigits (l : List Char) : Bool :=
  decide (l ≠ []) && l.all Char.isDigit

/-- Python `int(str)`: strip whitespace, optional sign, decimal digits. -/
def pyInt (s : String) : Option Int :=
  match (pyStrip s).data with
  | '-' :: ds => if allDigits ds then some (-(digitsToNat ds : Int)) else none
  | '+' :: ds => if allDigits ds then some (digitsToNat ds : Int) else none
  | ds => if allDigits ds then some (digitsToNat ds : Int) else none

/-- Parse the mantissa of a float token (optional sign, digits, optional
fractional part) into a scaled integer paired with the fractional length,
so that the value is the integer divided by ten to that length. -/
def pyFloatMantissa (m : String) : Option (Int × Nat) :=
  let (sign, core) : Int × String :=
    if pyStartsWith m "-" then (-1, ⟨m.data.drop 1⟩)
    else if pyStartsWith m "+" then (1, ⟨m.data.drop 1⟩) else (1, m)
  match pySplitOn core "." with
  | [a] => if allDigits a.data then some (sign * (digitsToNat a.data : Int), 0) else none
  | [a, b] =>
      if (a ≠ "" ∨ b ≠ "") ∧ a.data.all Char.isDigit ∧ b.data.all Char.isDigit then
        some (sign * ((digitsToNat a.data : Int) * (10 : Int) ^ b.data.length
                + (digitsToNat b.data : Int)),
              b.data.length)
      else none
  | _ => none

/-- Float parsing as numpy `astype(np.float32)` applies to a token: mantissa
with an optional decimal exponent (the special infinity and not-a-number
tokens are not exercised by these datasets and are not modelled).  The exact
rational value is assembled with `mkRat`. -/
def pyFloat (s : String) : Option ℚ :=
  let t := pyStrip s
  let (mant, ex) : String × Option String :=
    match pySplitOn t "e" with
    | [m, e] => (m, some e)
    | [m] =>
        (match pySplitOn m "E" with
         | [m2, e2] => (m2, some e2)
         | _ => (m, none))
    | _ => ("", some "")
  let ev? : Option Int :=
    match ex with
    | none => some 0
    | some e => pyInt e
  match ev? with
  | none => none
  | some ev =>
    match pyFloatMantissa mant with
    | none => none
    | some (mv, fl) =>
      match ev with
      | Int.ofNat e => some (mkRat (mv * (10 : Int) ^ e) ((10 : Nat) ^ fl))
      | Int.negSucc e => some (mkRat mv ((10 : Nat) ^ fl * (10 : Nat) ^ (e + 1)))

/-- Split on whitespace discarding empty pieces, as Python `str.split()`. -/
def splitWs (s : String) : List String :=
  (pySplitPred s Char.isWhitespace).filter (fun t => t ≠ "")

/-- Drop a trailing line comment, as numpy `loadtxt` does. -/
def stripComment (s : String) : String :=
  match pySplitOn s "#" with
  | [] => s
  | x :: _ => x

/-- The token rows numpy `loadtxt` reads: lines after `skiprows`, comments
stripped, blank lines discarded. -/
def loadtxtRows (content : String) (skiprows : Nat) : List (List String) :=
  ((((pySplitOn content "\n")).drop skiprows).map (fun l => splitWs (stripComment l))).filter
    (fun r => r ≠ [])

/-- numpy `loadtxt(..., dtype=str)`: token rows with a uniform column count,
a `ValueError` otherwise. -/
def loadtxtStr (content : String) (skiprows : Nat) : Except PyErr (List (List String)) :=
  let rows := loadtxtRows content skiprows
  match rows with
  | [] => .ok []
  | r0 :: rest =>
      if rest.all (fun r => r.length = r0.length) then .ok rows
      else .error (.valueError "Wrong number of columns")

/-- One Metcalf record as produced by `content_to_xyz`; the energies are the
raw comma-separated header fields, kept as strings as the source does. -/
structure MetcalfItem where
  n_atoms : List Int
  subset : List String
  energies : List String
  atomic_inputs : List (List ℚ)
  name : List String
  n_atoms_ptr : List Int
  deriving DecidableEq

/-- The `try` block of `content_to_xyz`: atom count from line one, name and
energies from the comma-separated line two; `none` models the caught
exception (too few lines, or a first line that is not an integer). -/
def metcalfHeader (content : String) : Option (Int × String × List String) :=
  match pySplitOn content "\n" with
  | l0 :: l1 :: _ =>
      (match pyInt l0 with
       | none => none
       | some na =>
           let tmp := pySplitOn l1 ","
           some (na, tmp.headD "", (tmp.drop 1).dropLast))
  | _ => none

/-- `content_to_xyz(content, subset)`: the header is parsed inside a `try`
block whose failures are caught, logged as a warning, and turned into a
`None` result; everything after the header (the `loadtxt` table, float
conversion, symbol lookup) runs outside the `try` block, so its failures
raise.  `loadtxt` output with fewer than two rows or columns is
one-dimensional, making the column slicing fail with an index error. -/
def content_to_xyz (content subset : String) : Except PyErr (Option MetcalfItem) :=
  match metcalfHeader content with
  | none => .ok none
  | some (num_atoms, name, e) =>
    match loadtxtStr content 2 with
    | .error err => .error err
    | .ok rows =>
      if rows.length ≤ 1 ∨ (rows.headD []).length ≤ 1 then
        .error (.indexError "too many indices for array")
      else
        match mapOption (fun r => mapOption pyFloat (r.drop 1)) rows with
        | none => .error (.valueError "could not convert string to float")
        | some positions =>
          match mapOption atomicNumberOf (rows.map (fun r => r.headD "")) with
          | none => .error (.valueError "unrecognized element symbol")
          | some z =>
            match concatRows (z.map (fun zi => [(Nat.cast zi : ℚ), 0])) positions with
            | .error err => .error err
            | .ok atomic_inputs =>
              .ok (some { n_atoms := [num_atoms], subset := [subset], energies := e,
                          atomic_inputs := atomic_inputs, name := [name],
                          n_atoms_ptr := [-1] })

/-- `read_xyz(fname, subset)` applied to the contents of `fname`: split the
file on blank lines and convert every piece, collecting the results (`None`
placeholders included) in order. -/
def read_xyz (fileContent subset : String) : Except PyErr (List (Option MetcalfItem)) :=
  mapExcept (fun c => content_to_xyz c subset) (pySplitOn fileContent "\n\n")

/-! ## Helper lemmas -/

theorem mem_dirChainAux_self (k : Nat) (p : String) : p ∈ dirChainAux k p := by
  cases k with
  | zero => simp [dirChainAux]
  | succ k =>
      simp only [dirChainAux]
      split
      · simp
      · simp

theorem addDirs_dirChain_self (dirs : String → Bool) (p : String) :
    addDirs dirs (dirChain p) p = true := by
  simp [addDirs, dirChain]
  exact Or.inr (mem_dirChainAux_self _ _)

theorem get_local_cache_of_exists (s : Sys) (h : s.localDirs (resolveCache s) = true) :
    get_local_cache s = .ok (s, resolveCache s) := by
  simp [get_local_cache, osMakedirs, h]

theorem osMakedirs_exist_ok_of_dir (files : String → Option FileVal) (dirs : String → Bool)
    (p : String) (h : dirs p = true) : osMakedirs files dirs p true = .ok dirs := by
  simp [osMakedirs, h]

/-! ## C2: pull is a no-op on an existing local file -/

/-- C2.  When the local file already exists (and, as on any well-formed
filesystem, its parent directory and the cache root exist as directories),
`pull_locally` with `overwrite=False` changes nothing — the local and remote
stores of the resulting state are exactly those of the input state, so no
remote fetch and no local write happens — and it returns the local path. -/
theorem pull_locally_noop (s : Sys) (p : String) (v : FileVal)
    (hfile : s.localFiles p = some v)
    (hcache : s.localDirs (resolveCache s) = true)
    (hdir : s.localDirs (pyDirname p) = true) :
    pull_locally s p false = .ok (s, p) := by
  simp [pull_locally, get_local_cache_of_exists s hcache,
    osMakedirs_exist_ok_of_dir _ _ _ hdir, checkFileExists, hfile]

def emptyEnv : String → Option String := fun _ => none

/-- A small concrete state: cache root configured to `/c`, which exists as a
directory; no files anywhere. -/
def sysA : Sys :=
  { cacheDirVar := "/c", env := emptyEnv, pwHome := "/home/u", users := fun _ => none,
    localFiles := fun _ => none, localDirs := fun q => q == "/c",
    remoteFiles := fun _ => none, remoteDirs := fun _ => false }

/-- `sysA` with one local file below the cache root. -/
def sysPull : Sys :=
  { sysA with localFiles := fun q => if q = "/c/f.zip" then some (.blob "x") else none }

/-- Witness for C2 at a concrete state. -/
theorem pull_locally_noop_witness :
    pull_locally sysPull "/c/f.zip" false = .ok (sysPull, "/c/f.zip") :=
  pull_locally_noop sysPull "/c/f.zip" (.blob "x") rfl (by decide) (by decide)

/-! ## C3: pull fetches on a remote hit and fails on a double miss -/

/-- C3 (amended).  With `overwrite=False`, `pull_locally` fails exactly when
neither a local nor a remote copy exists, and the failure is the builtin
file-not-found error raised by the transport — the code defines no dedicated
remote-miss error type; when the remote copy exists and the local one does
not, it is fetched into the local path. -/
theorem pull_locally_spec (s : Sys) (p : String)
    (hcache : s.localDirs (resolveCache s) = true)
    (hdir : s.localDirs (pyDirname p) = true) :
    ((∃ e, pull_locally s p false = .error e) ↔
      (checkFileExists s p = false ∧ s.remoteFiles (remote_path_of s p false) = none)) ∧
    (checkFileExists s p = false → s.remoteFiles (remote_path_of s p false) = none →
      pull_locally s p false = .error (.fileNotFoundError (remote_path_of s p false))) ∧
    (∀ v, checkFileExists s p = false → s.remoteFiles (remote_path_of s p false) = some v →
      pull_locally s p false =
        .ok ({ s with localFiles := fun q => if q = p then some v else s.localFiles q }, p)) := by
  have hbase : ∀ ow, pull_locally s p ow =
      (if ¬ checkFileExists s p || ow then
        match s.remoteFiles (remote_path_of s p false) with
        | none => .error (.fileNotFoundError (remote_path_of s p false))
        | some v =>
            .ok ({ s with localFiles := fun q => if q = p then some v else s.localFiles q }, p)
      else .ok (s, p)) := by
    intro ow
    simp only [pull_locally, get_local_cache_of_exists s hcache,
      osMakedirs_exist_ok_of_dir _ _ _ hdir]
    rfl
  refine ⟨?_, ?_, ?_⟩
  · rw [hbase]
    constructor
    · rintro ⟨e, he⟩
      by_cases hex : checkFileExists s p
      · simp [hex] at he
      · cases hrem : s.remoteFiles (remote_path_of s p false) with
        | none => exact ⟨by simp [hex], rfl⟩
        | some v => simp [hex, hrem] at he
    · rintro ⟨hex, hrem⟩
      exact ⟨PyErr.fileNotFoundError (remote_path_of s p false), by simp [hex, hrem]⟩
  · intro hex hrem
    rw [hbase]
    simp [hex, hrem]
  · intro v hex hrem
    rw [hbase]
    simp [hex, hrem]

/-- `sysA` with one remote object below the remote root and no local files. -/
def sysRemote : Sys :=
  { sysA with
    remoteFiles := fun q =>
      if q = "https://storage.googleapis.com/qmdata-public/openqdc/f.zip" then
        some (.blob "remote-bytes")
      else none }

/-- Witness for C3 at a concrete state: no local copy, a remote copy present,
which the pull fetches into the local path. -/
theorem pull_locally_spec_witness :
    pull_locally sysRemote "/c/f.zip" false =
      .ok ({ sysRemote with
              localFiles := fun q =>
                if q = "/c/f.zip" then some (.blob "remote-bytes")
                else sysRemote.localFiles q },
           "/c/f.zip") :=
  (pull_locally_spec sysRemote "/c/f.zip" (by decide) (by decide)).2.2
    (.blob "remote-bytes") (by decide) (by rfl)

/-- Counterexample to C3 as stated: at a state where neither copy exists, the
error raised is not the dedicated remote-miss error the claim names. -/
theorem pull_locally_not_remoteObjectMissing :
    (match pull_locally sysA "/c/f.zip" false with
     | .error e => e.isRemoteObjectMissing
     | .ok _ => true) = false := by
  rfl

/-! ## C4: push with an existing remote parent directory errors -/

/-- `sysA` with a local file and its already-pushed remote twin, the remote
parent directory existing (as after any previous push). -/
def sysPush : Sys :=
  { sysA with
    localFiles := fun q => if q = "/c/ds.zip" then some (.blob "payload") else none,
    remoteFiles := fun q =>
      if q = "https://storage.googleapis.com/qmdata-public/openqdc/ds.zip" then
        some (.blob "payload") else none,
    remoteDirs := fun q => q == "https://storage.googleapis.com/qmdata-public/openqdc" }

/-- C4 (code bug).  The claim (and the spec) require a repeated push with
`overwrite=False` and an existing destination to be a no-op; but
`push_remote` calls `mkdirs(..., exist_ok=False)`, so as soon as the remote
parent directory already exists the call raises a file-exists error before
ever reaching its no-op branch. -/
theorem push_remote_existing_dir_errors :
    push_remote sysPush "/c/ds.zip" false =
      .error (.fileExistsError "https://storage.googleapis.com/qmdata-public/openqdc") := by
  rfl

/-! ## C5: local/remote address spaces are parallel -/

theorem isPrefixOf_append_self (l t : List Char) : l.isPrefixOf (l ++ t) = true := by
  induction l with
  | nil => cases t <;> rfl
  | cons a as ih => simp [List.isPrefixOf, ih]

theorem replaceAllAux_skip (pat rep : List Char) (pre : List Char) : ∀ rest : List Char,
    replaceAllAux pat rep (pre ++ rest) pre.length = replaceAllAux pat rep rest 0 := by
  induction pre with
  | nil => intro rest; rfl
  | cons a as ih =>
      intro rest
      rw [List.cons_append]
      show replaceAllAux pat rep (as ++ rest) as.length = replaceAllAux pat rep rest 0
      exact ih rest

theorem replaceAllAux_append_self (pat rep rest : List Char) (hp : pat ≠ []) :
    replaceAllAux pat rep (pat ++ rest) 0 = rep ++ replaceAllAux pat rep rest 0 := by
  cases pat with
  | nil => exact absurd rfl hp
  | cons p pt =>
      have hpre : (p :: pt).isPrefixOf (p :: (pt ++ rest)) = true :=
        isPrefixOf_append_self (p :: pt) rest
      rw [List.cons_append]
      show (if (p :: pt) ≠ [] ∧ (p :: pt).isPrefixOf (p :: (pt ++ rest)) then
              rep ++ replaceAllAux (p :: pt) rep (pt ++ rest) ((p :: pt).length - 1)
            else p :: replaceAllAux (p :: pt) rep (pt ++ rest) 0) = _
      rw [if_pos ⟨List.cons_ne_nil p pt, hpre⟩]
      have hlen : (p :: pt).length - 1 = pt.length := by simp
      rw [hlen, replaceAllAux_skip (p :: pt) rep pt rest]

theorem replaceAllAux_no_occ (pat rep : List Char) : ∀ l : List Char,
    containsSub pat l = false → replaceAllAux pat rep l 0 = l := by
  intro l
  induction l with
  | nil => intro h; rfl
  | cons c cs ih =>
      intro h
      simp only [containsSub, Bool.or_eq_false_iff] at h
      obtain ⟨h1, h2⟩ := h
      show (if pat ≠ [] ∧ pat.isPrefixOf (c :: cs) then
              rep ++ replaceAllAux pat rep cs (pat.length - 1)
            else c :: replaceAllAux pat rep cs 0) = c :: cs
      rw [if_neg (by rintro ⟨hne, hpre⟩; rw [h1] at hpre; cases hpre)]
      rw [ih h2]

theorem string_data_append (s t : String) : (s ++ t).data = s.data ++ t.data := by
  cases s; cases t; rfl

theorem pyReplace_root (root rep rest : String) (hr : root ≠ "")
    (hocc : containsSub root.data rest.data = false) :
    pyReplace (root ++ rest) root rep = rep ++ rest := by
  have hd : root.data ≠ [] := by
    intro h
    apply hr
    cases root with
    | mk l => cases h; rfl
  simp only [pyReplace, if_neg hd]
  rw [string_data_append, replaceAllAux_append_self _ _ _ hd,
    replaceAllAux_no_occ _ _ _ hocc]
  cases rep; cases rest; rfl

/-- C5 (amended).  The remote path addressed by pull (read-only root), push
(authenticated root) and the existence check is the local path with every
occurrence of the local cache root substring replaced by the remote root —
Python `str.replace` replaces all occurrences, not only the leading one — so
for every local path in which the root string occurs only as the leading
prefix, the remote path is exactly the local path with the root prefix
swapped for the remote root. -/
theorem remote_path_parallel (s : Sys) (rest : String)
    (hr : resolveCache s ≠ "")
    (hocc : containsSub (resolveCache s).data rest.data = false) :
    remote_path_of s (resolveCache s ++ rest) true = get_remote_cache true ++ rest ∧
    remote_path_of s (resolveCache s ++ rest) false = get_remote_cache false ++ rest :=
  ⟨pyReplace_root _ _ _ hr hocc, pyReplace_root _ _ _ hr hocc⟩

/-- Witness for C5 at a concrete state and relative path. -/
theorem remote_path_parallel_witness :
    remote_path_of sysA (resolveCache sysA ++ "/x.h5") true =
        get_remote_cache true ++ "/x.h5" ∧
    remote_path_of sysA (resolveCache sysA ++ "/x.h5") false =
        get_remote_cache false ++ "/x.h5" :=
  remote_path_parallel sysA "/x.h5" (by decide) (by decide)

/-- Counterexample to C5 as stated: when the root string reoccurs inside the
path, the computed remote path is not the prefix substitution the claim
describes (the inner occurrence is replaced as well). -/
theorem remote_path_not_plain_replacement :
    remote_path_of sysA "/c/a/c/b" false ≠ get_remote_cache false ++ "/a/c/b" := by
  decide

/-! ## C8: the configurable cache root -/

theorem pyExpanduser_congr (s t : Sys) (x : String) (he : s.env = t.env)
    (hp : s.pwHome = t.pwHome) (hu : s.users = t.users) :
    pyExpanduser s x = pyExpanduser t x := by
  simp [pyExpanduser, he, hp, hu]

/-- C8.  The local cache root is a single configurable value: the module
initializer derives it from the `OPENQDC_CACHE_DIR` environment variable with
the fixed fallback `~/.cache/openqdc` when unset; `set_cache_dir` with `None`
is a no-op while a path argument replaces the configured value (the resolved
root then depends only on the new value and the environment, not on the
previous configuration); and `get_local_cache` returns the resolved root
after creating it when missing, touching nothing when it already exists. -/
theorem cache_root_config :
    (∀ env : String → Option String, env "OPENQDC_CACHE_DIR" = none →
        initCacheDirVar env = "~/.cache/openqdc") ∧
    (∀ (env : String → Option String) (v : String), env "OPENQDC_CACHE_DIR" = some v →
        initCacheDirVar env = pyNormpath v) ∧
    (∀ s : Sys, set_cache_dir s none = s) ∧
    (∀ (s t : Sys) (d : String), s.env = t.env → s.pwHome = t.pwHome → s.users = t.users →
        resolveCache (set_cache_dir s (some d)) = resolveCache (set_cache_dir t (some d))) ∧
    (∀ (s s2 : Sys) (p : String), get_local_cache s = .ok (s2, p) →
        p = resolveCache s ∧ s2.localDirs p = true ∧ (s.localDirs p = true → s2 = s)) := by
  refine ⟨?_, ?_, ?_, ?_, ?_⟩
  · intro env h; simp [initCacheDirVar, h]
  · intro env v h; simp [initCacheDirVar, h]
  · intro s; rfl
  · intro s t d he hp hu
    have h1 : pyExpanduser s d = pyExpanduser t d := pyExpanduser_congr _ _ _ he hp hu
    simp only [resolveCache, set_cache_dir, h1]
    rw [show ({ s with cacheDirVar := pyNormpath (pyExpanduser t d) } : Sys).env = s.env from rfl]
    rw [he]
    exact pyExpanduser_congr _ _ _ rfl hp hu
  · intro s s2 p h
    by_cases hdir : s.localDirs (resolveCache s) = true
    · rw [get_local_cache_of_exists s hdir] at h
      have hsp : s = s2 ∧ resolveCache s = p := by simpa using h
      obtain ⟨hs, hp⟩ := hsp
      subst hs; subst hp
      exact ⟨rfl, hdir, fun _ => rfl⟩
    · have hdirf : s.localDirs (resolveCache s) = false := by
        cases hb : s.localDirs (resolveCache s)
        · rfl
        · exact absurd hb hdir
      cases hfs : (s.localFiles (resolveCache s)).isSome with
      | true =>
          exfalso
          simp [get_local_cache, osMakedirs, hdirf, hfs] at h
      | false =>
          have hsp :
              ({ s with localDirs := addDirs s.localDirs (dirChain (resolveCache s)) } : Sys) = s2
                ∧ resolveCache s = p := by
            simpa [get_local_cache, osMakedirs, hdirf, hfs] using h
          obtain ⟨hs, hp⟩ := hsp
          subst hs; subst hp
          refine ⟨rfl, ?_, ?_⟩
          · exact addDirs_dirChain_self _ _
          · intro hcon; exact absurd hcon hdir

/-- Witness for C8 at concrete inputs. -/
theorem cache_root_config_witness :
    initCacheDirVar emptyEnv = "~/.cache/openqdc" ∧
    initCacheDirVar (fun k => if k = "OPENQDC_CACHE_DIR" then some "/data//qdc/." else none) =
        pyNormpath "/data//qdc/." ∧
    set_cache_dir sysA none = sysA ∧
    resolveCache (set_cache_dir sysA (some "/d")) = resolveCache (set_cache_dir sysA (some "/d")) ∧
    ("/c" = resolveCache sysA ∧ sysA.localDirs "/c" = true ∧
      (sysA.localDirs "/c" = true → sysA = sysA)) :=
  ⟨cache_root_config.1 emptyEnv rfl,
   cache_root_config.2.1 _ "/data//qdc/." rfl,
   cache_root_config.2.2.1 sysA,
   cache_root_config.2.2.2.1 sysA sysA "/d" rfl rfl rfl,
   cache_root_config.2.2.2.2 sysA sysA "/c" (by rfl)⟩

/-! ## C6: missing raw files -/

/-- C6 (amended).  When the raw archive is absent locally, the GDML adapter's
`read_raw_entries` raises the builtin `FileNotFoundError` produced by the
explicit existence check in `load_hdf5_file` (with its descriptive message);
the code defines no dedicated `RawSourceMissingError` type. -/
theorem gdml_missing_raw_file (s : Sys) (root : String)
    (h : checkFileExists s (pyJoin root "gdml.h5.gz") = false) :
    GDML_read_raw_entries s root =
      .error (.fileNotFoundError
        ("File " ++ pyJoin root "gdml.h5.gz" ++ " does not exist on GCS and local.")) := by
  simp [GDML_read_raw_entries, read_qc_archive_h5, load_hdf5_file, h]

/-- Witness for C6 at a concrete state with no files. -/
theorem gdml_missing_raw_file_witness :
    GDML_read_raw_entries sysA "/c" =
      .error (.fileNotFoundError
        ("File " ++ pyJoin "/c" "gdml.h5.gz" ++ " does not exist on GCS and local.")) :=
  gdml_missing_raw_file sysA "/c" (by decide)

/-- Counterexample to C6 as stated: the error raised on a missing raw file is
not the dedicated raw-source-miss error the claim names. -/
theorem gdml_error_not_rawSourceMissing :
    (match GDML_read_raw_entries sysA "/c" with
     | .error e => e.isRawSourceMissing
     | .ok _ => true) = false := by
  rfl

/-! ## C7: malformed records are not always fatal -/

/-- C7 (amended).  A record whose header is malformed (fewer than two lines,
or a first line that is not an integer) is not fatal: `content_to_xyz`
catches the failure, logs a warning, and returns `None`, which `read_xyz`
keeps as a placeholder in the returned record list.  Violations after the
header do raise: a non-uniform atom table surfaces `loadtxt`'s error to the
caller. -/
theorem content_to_xyz_header_vs_body (content subset : String) :
    ((pySplitOn content "\n").length < 2 ∨ pyInt ((pySplitOn content "\n").headD "") = none →
      content_to_xyz content subset = .ok none) ∧
    (∀ (l0 l1 : String) (rest : List String) (er : PyErr),
      pySplitOn content "\n" = l0 :: l1 :: rest → (∃ na, pyInt l0 = some na) →
      loadtxtStr content 2 = .error er → content_to_xyz content subset = .error er) := by
  constructor
  · intro h
    have hh : metcalfHeader content = none := by
      cases hl : pySplitOn content "\n" with
      | nil => simp [metcalfHeader, hl]
      | cons l0 tl =>
          cases tl with
          | nil => simp [metcalfHeader, hl]
          | cons l1 tl2 =>
              have hint : pyInt l0 = none := by
                rcases h with h | h
                · rw [hl] at h; simp at h; omega
                · rw [hl] at h; simpa using h
              simp [metcalfHeader, hl, hint]
    simp [content_to_xyz, hh]
  · rintro l0 l1 rest er hl ⟨na, hna⟩ herr
    have hh : metcalfHeader content =
        some (na, (pySplitOn l1 ",").headD "", ((pySplitOn l1 ",").drop 1).dropLast) := by
      simp [metcalfHeader, hl, hna]
    simp [content_to_xyz, hh, herr]

/-- Witness for C7 at two concrete records: a malformed header yields the
`None` placeholder, a malformed body raises. -/
theorem content_to_xyz_header_vs_body_witness :
    content_to_xyz "zz\nq" "metcalf" = .ok none ∧
    content_to_xyz "3\nn,\nH 1 1 1\nO 1 1 1 1" "metcalf" =
      .error (.valueError "Wrong number of columns") :=
  ⟨(content_to_xyz_header_vs_body "zz\nq" "metcalf").1 (by decide),
   (content_to_xyz_header_vs_body "3\nn,\nH 1 1 1\nO 1 1 1 1" "metcalf").2
     "3" "n," ["H 1 1 1", "O 1 1 1 1"] (.valueError "Wrong number of columns")
     (by decide) ⟨3, by decide⟩ (by rfl)⟩

/-- Counterexample to C7 as stated: a raw record violating the schema (header
not an integer) is neither raised nor dropped with an error — the returned
record list of `read_xyz` holds a `None` placeholder for it and the call
succeeds. -/
theorem read_xyz_keeps_none_placeholder :
    read_xyz "oops\nname,1.0,2.0,x\nH 0.0 0.0 0.0\nO 0.0 0.0 1.0" "metcalf" = .ok [none] := by
  rfl

/-! ## C1: missing force methods are NaN-filled -/

theorem mapOption_length {α β : Type} (f : α → Option β) :
    ∀ (l : List α) (res : List β), mapOption f l = some res → res.length = l.length := by
  intro l
  induction l with
  | nil => intro res h; cases h; rfl
  | cons a t ih =>
      intro res h
      simp only [mapOption] at h
      cases hfa : f a with
      | none => rw [hfa] at h; cases h
      | some b =>
          cases hmt : mapOption f t with
          | none => rw [hfa, hmt] at h; cases h
          | some bs =>
              rw [hfa, hmt] at h
              cases h
              simp [ih bs hmt]

theorem mapOption_total {α β : Type} (f : α → Option β) :
    ∀ l : List α, (∀ a ∈ l, (f a).isSome = true) → ∃ res, mapOption f l = some res := by
  intro l
  induction l with
  | nil => intro _; exact ⟨[], rfl⟩
  | cons a t ih =>
      intro h
      obtain ⟨b, hb⟩ := Option.isSome_iff_exists.mp (h a (List.mem_cons_self a t))
      obtain ⟨bs, hbs⟩ := ih (fun x hx => h x (List.mem_cons_of_mem a hx))
      exact ⟨b :: bs, by simp [mapOption, hb, hbs]⟩

theorem chunk3_length : ∀ (l : List ℚ) (rows : List (List ℚ)),
    chunk3 l = some rows → l.length = 3 * rows.length
  | [], rows => by
      intro h; cases h; rfl
  | [a], rows => by intro h; simp [chunk3] at h
  | [a, b], rows => by intro h; simp [chunk3] at h
  | a :: b :: c :: rest, rows => by
      intro h
      simp only [chunk3] at h
      cases hr : chunk3 rest with
      | none => rw [hr] at h; cases h
      | some rs =>
          rw [hr] at h
          cases h
          have := chunk3_length rest rs hr
          simp [List.length_cons, this]
          ring

theorem chunk3_of_length : ∀ (n : Nat) (l : List ℚ), l.length = 3 * n →
    ∃ rows, chunk3 l = some rows ∧ rows.length = n := by
  intro n
  induction n with
  | zero =>
      intro l h
      have : l = [] := List.length_eq_zero.mp (by simpa using h)
      subst this
      exact ⟨[], rfl, rfl⟩
  | succ m ih =>
      intro l h
      cases l with
      | nil => simp at h
      | cons a l1 =>
        cases l1 with
        | nil => simp at h; omega
        | cons b l2 =>
          cases l2 with
          | nil => simp at h; omega
          | cons c rest =>
              have hr : rest.length = 3 * m := by
                simp [List.length_cons] at h
                omega
              obtain ⟨rows, h1, h2⟩ := ih rest hr
              exact ⟨[a, b, c] :: rows, by simp [chunk3, h1], by simp [h2]⟩

theorem chunk3_getD : ∀ (l : List ℚ) (rows : List (List ℚ)), chunk3 l = some rows →
    ∀ (a c : Nat), a < rows.length → c < 3 →
      (rows.getD a []).getD c 0 = l.getD (3 * a + c) 0
  | [], rows => by intro h a c ha hc; cases h; simp at ha
  | [x], rows => by intro h; simp [chunk3] at h
  | [x, y], rows => by intro h; simp [chunk3] at h
  | x :: y :: z :: rest, rows => by
      intro h a c ha hc
      simp only [chunk3] at h
      cases hr : chunk3 rest with
      | none => rw [hr] at h; cases h
      | some rs =>
          rw [hr] at h
          cases h
          cases a with
          | zero =>
              match c, hc with
              | 0, _ => rfl
              | 1, _ => rfl
              | 2, _ => rfl
          | succ a2 =>
              have ha2 : a2 < rs.length := by simpa using ha
              have hshift : 3 * (a2 + 1) + c = (3 * a2 + c) + 1 + 1 + 1 := by ring
              rw [List.getD_cons_succ, hshift]
              rw [List.getD_cons_succ, List.getD_cons_succ, List.getD_cons_succ]
              exact chunk3_getD rest rs hr a2 c ha2 hc

theorem pyEnum_map_fst {α : Type} : ∀ (i : Nat) (l : List α),
    (pyEnum i l).map Prod.fst = List.range' i l.length := by
  intro i l
  induction l generalizing i with
  | nil => rfl
  | cons a t ih => simp [pyEnum, List.range', ih]

theorem pyEnum_mem_snd {α : Type} : ∀ (i : Nat) (l : List α) (p : Nat × α),
    p ∈ pyEnum i l → p.2 ∈ l := by
  intro i l
  induction l generalizing i with
  | nil => intro p h; cases h
  | cons a t ih =>
      intro p h
      cases h with
      | head => exact List.mem_cons_self a t
      | tail _ h2 => exact List.mem_cons_of_mem a (ih (i + 1) p h2)

theorem pyEnum_mem_of_get? {α : Type} : ∀ (l : List α) (i t : Nat) (a : α),
    l.get? t = some a → (i + t, a) ∈ pyEnum i l := by
  intro l
  induction l with
  | nil => intro i t a h; cases h
  | cons b bt ih =>
      intro i t a h
      cases t with
      | zero =>
          cases h
          exact List.mem_cons_self _ _
      | succ t2 =>
          have := ih (i + 1) t2 a h
          have harith : i + (t2 + 1) = (i + 1) + t2 := by omega
          rw [harith]
          exact List.mem_cons_of_mem _ this

/-- The complete behavior of the force-filling loop under well-shaped input:
it succeeds, leaves untouched slices at their initial value, and for each
enumerated method either keeps the initial value (no data) or installs the
supplied values. -/
theorem fillForces_spec (d : DF) (i n : Nat) :
    ∀ (L : List (Nat × String)) (f : Nat → Nat → Nat → F32),
      (∀ p ∈ L, d.arr p.2 i = [] ∨ (d.arr p.2 i).length = 3 * n) →
      ∃ g, fillForces d i n L f = .ok g ∧
        (∀ j2, j2 ∉ L.map Prod.fst → ∀ a c, g a c j2 = f a c j2) ∧
        ((L.map Prod.fst).Nodup →
          ∀ p ∈ L, ∀ a c,
            (d.arr p.2 i = [] → g a c p.1 = f a c p.1) ∧
            (d.arr p.2 i ≠ [] → a < n → c < 3 →
              g a c p.1 = F32.val ((d.arr p.2 i).getD (3 * a + c) 0))) := by
  intro L
  induction L with
  | nil =>
      intro f _
      exact ⟨f, rfl, fun _ _ _ _ => rfl, fun _ p hp => absurd hp (List.not_mem_nil p)⟩
  | cons q L ih =>
      obtain ⟨j, k⟩ := q
      intro f hshape
      by_cases hemp : d.arr k i = []
      · obtain ⟨g, hg, hunt, hnod⟩ := ih f
          (fun p hp => hshape p (List.mem_cons_of_mem _ hp))
        refine ⟨g, ?_, ?_, ?_⟩
        · simp only [fillForces, hemp]
          simpa using hg
        · intro j2 hj2 a c
          exact hunt j2 (fun hmem => hj2 (by simpa using Or.inr hmem)) a c
        · intro hnodup p hp a c
          have hjnot : j ∉ L.map Prod.fst := by
            have := hnodup
            simp only [List.map_cons] at this
            exact (List.nodup_cons.mp this).1
          have hnodtail : (L.map Prod.fst).Nodup := by
            simp only [List.map_cons] at hnodup
            exact (List.nodup_cons.mp hnodup).2
          cases hp with
          | head =>
              refine ⟨fun _ => hunt j hjnot a c, fun hne2 _ _ => absurd hemp hne2⟩
          | tail _ hptail =>
              exact hnod hnodtail p hptail a c
      · have hlen : (d.arr k i).length = 3 * n := by
          rcases hshape (j, k) (List.mem_cons_self _ _) with h | h
          · exact absurd h hemp
          · exact h
        obtain ⟨rows, hrows, hrlen⟩ := chunk3_of_length n _ hlen
        have hbc : broadcastRows n rows = some rows := by
          simp [broadcastRows, hrlen]
        obtain ⟨g, hg, hunt, hnod⟩ := ih (updateSlice f j rows)
          (fun p hp => hshape p (List.mem_cons_of_mem _ hp))
        have hstep : fillForces d i n ((j, k) :: L) f = fillForces d i n L (updateSlice f j rows) := by
          have hne0 : (d.arr k i).length ≠ 0 := by
            intro h0
            exact hemp (List.length_eq_zero.mp h0)
          simp only [fillForces]
          rw [if_pos hne0, hrows]
          simp only [hbc]
        refine ⟨g, hstep ▸ hg, ?_, ?_⟩
        · intro j2 hj2 a c
          have hj2L : j2 ∉ L.map Prod.fst := fun hmem => hj2 (by simpa using Or.inr hmem)
          have hj2j : j2 ≠ j := by
            intro he
            exact hj2 (by simp [he])
          rw [hunt j2 hj2L a c]
          simp [updateSlice, hj2j]
        · intro hnodup p hp a c
          have hjnot : j ∉ L.map Prod.fst := by
            simp only [List.map_cons] at hnodup
            exact (List.nodup_cons.mp hnodup).1
          have hnodtail : (L.map Prod.fst).Nodup := by
            simp only [List.map_cons] at hnodup
            exact (List.nodup_cons.mp hnodup).2
          cases hp with
          | head =>
              refine ⟨fun he => absurd he hemp, fun _ ha hc => ?_⟩
              rw [hunt j hjnot a c]
              have hup : updateSlice f j rows a c j = F32.val ((rows.getD a []).getD c 0) := by
                simp [updateSlice]
              rw [hup, chunk3_getD _ _ hrows a c (by omega) hc]
          | tail _ hptail =>
              have hpj : p.1 ≠ j := by
                intro he
                apply hjnot
                rw [← he]
                exact List.mem_map_of_mem Prod.fst hptail
              have := hnod hnodtail p hptail a c
              refine ⟨fun he => ?_, this.2⟩
              rw [this.1 he]
              simp [updateSlice, hpj]

theorem getD_range_map {α : Type} (g : Nat → α) (n a : Nat) (d : α) (ha : a < n) :
    ((List.range n).map g).getD a d = g a := by
  simp [List.getD_eq_getElem?_getD, List.getElem?_map, List.getElem?_range ha]

theorem matForces_getD (n m : Nat) (f : Nat → Nat → Nat → F32) (a c j : Nat)
    (ha : a < n) (hc : c < 3) (hj : j < m) :
    (((matForces n m f).getD a []).getD c []).getD j (F32.val 0) = f a c j := by
  simp only [matForces]
  rw [getD_range_map _ _ _ _ ha, getD_range_map _ _ _ _ hc, getD_range_map _ _ _ _ hj]

/-- C1.  For a record of a dataset declaring a non-empty force-method list
(well-shaped where data is supplied), `extract_entry` succeeds, and in the
produced `(n_atoms, 3, n_force_methods)` force block the slice of every
method for which the record supplies no data (the empty array) is entirely
the NaN sentinel, while the slice of every method with supplied data holds
exactly the supplied values. -/
theorem extract_entry_nan_forces (d : DF) (i : Nat) (subset : Option String)
    (enames fnames : List String)
    (hz : ∀ s2 ∈ d.symbols i, (atomicNumberOf s2).isSome = true)
    (hgeom : (d.geometry i).length = 3 * (d.symbols i).length)
    (hf : ∀ k ∈ fnames, d.arr k i = [] ∨ (d.arr k i).length = 3 * (d.symbols i).length)
    (hne : fnames ≠ []) :
    ∃ rec F, extract_entry d i subset enames fnames = .ok rec ∧
      rec.forces = some F ∧
      ∀ (j : Nat) (k : String), fnames.get? j = some k →
        (d.arr k i = [] →
          ∀ a c, a < (d.symbols i).length → c < 3 →
            ((F.getD a []).getD c []).getD j (F32.val 0) = F32.nan) ∧
        (d.arr k i ≠ [] →
          ∀ a c, a < (d.symbols i).length → c < 3 →
            ((F.getD a []).getD c []).getD j (F32.val 0) =
              F32.val ((d.arr k i).getD (3 * a + c) 0)) := by
  obtain ⟨z, hzz⟩ := mapOption_total atomicNumberOf (d.symbols i) hz
  have hzlen : z.length = (d.symbols i).length := mapOption_length _ _ _ hzz
  obtain ⟨positions, hpos, hplen⟩ := chunk3_of_length (d.symbols i).length _ hgeom
  have hxslen : (z.map (fun zi => ([(Nat.cast zi : ℚ), 0] : List ℚ))).length = positions.length := by
    rw [List.length_map, hzlen, hplen]
  have hshape : ∀ p ∈ pyEnum 0 fnames,
      d.arr p.2 i = [] ∨ (d.arr p.2 i).length = 3 * z.length := by
    intro p hp
    rw [hzlen]
    exact hf p.2 (pyEnum_mem_snd 0 fnames p hp)
  obtain ⟨g, hgfill, hunt, hnod⟩ :=
    fillForces_spec d i z.length (pyEnum 0 fnames) (fun _ _ _ => F32.nan) hshape
  refine ⟨{ name := d.nameCol i,
            subset := match subset with | some ss => ss | none => z_to_formula z,
            energies := enames.map (fun k => d.num k i),
            atomic_inputs := List.zipWith (fun a b => a ++ b)
              (z.map (fun zi => ([(Nat.cast zi : ℚ), 0] : List ℚ))) positions,
            n_atoms := [z.length],
            forces := some (matForces z.length fnames.length g) },
          matForces z.length fnames.length g, ?_, rfl, ?_⟩
  · simp [extract_entry, hzz, hpos, concatRows, hxslen, hne, hgfill]
  · intro j k hjk
    obtain ⟨hjlt, _⟩ := List.get?_eq_some.mp hjk
    have hmem : (j, k) ∈ pyEnum 0 fnames := by
      have := pyEnum_mem_of_get? fnames 0 j k hjk
      simpa using this
    have hnodup : ((pyEnum 0 fnames).map Prod.fst).Nodup := by
      rw [pyEnum_map_fst]
      exact List.nodup_range' _ _
    have hspec := hnod hnodup (j, k) hmem
    constructor
    · intro hempty a c ha hc
      rw [matForces_getD _ _ _ _ _ _ (by rw [hzlen]; exact ha) hc hjlt]
      rw [(hspec a c).1 hempty]
    · intro hne2 a c ha hc
      rw [matForces_getD _ _ _ _ _ _ (by rw [hzlen]; exact ha) hc hjlt]
      exact (hspec a c).2 hne2 (by rw [hzlen]; exact ha) hc

/-- A concrete two-atom data frame with two declared force methods, data
supplied only for the first. -/
def d0 : DF :=
  { symbols := fun _ => ["H", "O"]
    geometry := fun _ => [0, 0, 0, 1, 0, 0]
    nameCol := fun _ => "rec0"
    num := fun _ _ => 5
    arr := fun k _ => if k = "F0" then [1, 2, 3, 4, 5, 6] else [] }

/-- Witness for C1 at the concrete frame `d0`. -/
theorem extract_entry_nan_forces_witness :
    ∃ rec F, extract_entry d0 0 (some "sub") ["E0"] ["F0", "F1"] = .ok rec ∧
      rec.forces = some F ∧
      ∀ (j : Nat) (k : String), (["F0", "F1"] : List String).get? j = some k →
        (d0.arr k 0 = [] →
          ∀ a c, a < (d0.symbols 0).length → c < 3 →
            ((F.getD a []).getD c []).getD j (F32.val 0) = F32.nan) ∧
        (d0.arr k 0 ≠ [] →
          ∀ a c, a < (d0.symbols 0).length → c < 3 →
            ((F.getD a []).getD c []).getD j (F32.val 0) =
              F32.val ((d0.arr k 0).getD (3 * a + c) 0)) :=
  extract_entry_nan_forces d0 0 (some "sub") ["E0"] ["F0", "F1"]
    (by decide) (by decide) (by decide) (by decide)

/-! ## C9: the formal-charge column is identically zero -/

theorem concatRows_ok : ∀ (xs ys rows : List (List ℚ)), concatRows xs ys = .ok rows →
    rows = List.zipWith (fun a b => a ++ b) xs ys := by
  intro xs ys rows h
  simp only [concatRows] at h
  split at h
  · cases h; rfl
  · cases h

theorem concatRows_ok_len : ∀ (xs ys rows : List (List ℚ)), concatRows xs ys = .ok rows →
    xs.length = ys.length := by
  intro xs ys rows h
  simp only [concatRows] at h
  split at h
  · next hc => exact hc
  · cases h

theorem charge_col_of_pairs : ∀ (xs ys : List (List ℚ)),
    (∀ x ∈ xs, x.length = 2 ∧ x.getD 1 9 = 0) →
    ∀ row ∈ List.zipWith (fun a b => a ++ b) xs ys, row.getD 1 9 = 0 := by
  intro xs
  induction xs with
  | nil => intro ys _ row hrow0; simp at hrow0
  | cons x xt ih =>
      intro ys h row hrow
      cases ys with
      | nil => simp at hrow
      | cons y yt =>
          cases hrow with
          | head =>
              obtain ⟨hlen, hval⟩ := h x (List.mem_cons_self x xt)
              rw [List.getD_append _ _ _ _ (by omega)]
              exact hval
          | tail _ htail =>
              exact ih yt (fun a ha => h a (List.mem_cons_of_mem x ha)) row htail

/-- C9.  Each per-molecule record built by the adapter helpers
`extract_entry`, `content_to_xyz` and `shape_atom_inputs` has the
formal-charge column (position 1 of every `atomic_inputs` row) identically
zero: these adapters pair every atomic number with a zero charge. -/
theorem charge_column_zero :
    (∀ (d : DF) (i : Nat) (subset : Option String) (en fn : List String) (rec : Entry),
        extract_entry d i subset en fn = .ok rec →
        ∀ row ∈ rec.atomic_inputs, row.getD 1 9 = 0) ∧
    (∀ (content subset : String) (item : MetcalfItem),
        content_to_xyz content subset = .ok (some item) →
        ∀ row ∈ item.atomic_inputs, row.getD 1 9 = 0) ∧
    (∀ (coords species : Arr) (out : List (List ℚ)),
        shape_atom_inputs coords species = .ok out →
        ∀ row ∈ out, row.getD 1 9 = 0) := by
  have hxs : ∀ (z : List ℕ) (x : List ℚ),
      x ∈ z.map (fun zi => [(Nat.cast zi : ℚ), 0]) → x.length = 2 ∧ x.getD 1 9 = 0 := by
    intro z x hx
    obtain ⟨zi, _, rfl⟩ := List.mem_map.mp hx
    exact ⟨rfl, rfl⟩
  refine ⟨?_, ?_, ?_⟩
  · intro d i subset en fn rec h
    unfold extract_entry at h
    repeat' split at h
    all_goals cases h
    all_goals
      rename concatRows _ _ = Except.ok _ => hcr
      dsimp only
      rw [concatRows_ok _ _ _ hcr]
      exact charge_col_of_pairs _ _ (hxs _)
  · intro content subset item h
    unfold content_to_xyz at h
    repeat' split at h
    all_goals cases h
    all_goals
      rename concatRows _ _ = Except.ok _ => hcr
      dsimp only
      rw [concatRows_ok _ _ _ hcr]
      exact charge_col_of_pairs _ _ (hxs _)
  · intro coords species out h
    have hxsQ : ∀ (z : List ℚ) (x : List ℚ),
        x ∈ z.map (fun zi => [zi, (0 : ℚ)]) → x.length = 2 ∧ x.getD 1 9 = 0 := by
      intro z x hx
      obtain ⟨zi, _, rfl⟩ := List.mem_map.mp hx
      exact ⟨rfl, rfl⟩
    unfold shape_atom_inputs at h
    split at h
    · cases h
    · split at h
      · split at h
        · rw [concatRows_ok _ _ _ h]
          exact charge_col_of_pairs _ _ (hxsQ _)
        · cases h
      · cases h

/-! ## C10: npz records are consistent on the atom axis -/

theorem flatten_replicate_length (f : Nat) (l : List ℚ) :
    ((List.replicate f l).flatten).length = f * l.length := by
  induction f with
  | zero => simp
  | succ k ih =>
      simp only [List.replicate, List.flatten_cons, List.length_append, ih]
      ring

theorem sum_replicate_nat (f m : Nat) : (List.replicate f m).sum = f * m := by
  induction f with
  | zero => simp
  | succ k ih =>
      simp only [List.replicate, List.sum_cons, ih]
      ring

theorem shape_atom_inputs_ok (coords species : Arr) (out : List (List ℚ)) (f n : Nat)
    (hsh : coords.shape = [f, n, 3])
    (h : shape_atom_inputs coords species = .ok out) :
    ∃ m reshaped,
      species.shape = [m] ∧
      chunk3 coords.data = some reshaped ∧
      f * species.data.length = reshaped.length ∧
      out.length = reshaped.length := by
  unfold shape_atom_inputs at h
  cases hchunk : chunk3 coords.data with
  | none => rw [hchunk] at h; simp at h
  | some reshaped =>
      rw [hchunk, hsh] at h
      cases hspec : species.shape with
      | nil => rw [hspec] at h; simp at h
      | cons m tl =>
          cases tl with
          | cons a b => rw [hspec] at h; simp at h
          | nil =>
              rw [hspec] at h
              have hlen := concatRows_ok_len _ _ _ h
              have hout := concatRows_ok _ _ _ h
              rw [List.length_map, flatten_replicate_length] at hlen
              refine ⟨m, reshaped, rfl, rfl, hlen, ?_⟩
              rw [hout, List.length_zipWith, List.length_map, flatten_replicate_length, hlen]
              exact min_self _

/-- C10.  For an npz trajectory whose coordinate array has shape
`(frames, n, 3)` and whose force array has the same total size, a record
returned by `read_npz_entry` is internally consistent on the atom axis:
`atomic_inputs` and `forces` both have `frames * n` rows and the `n_atoms`
entries sum to `frames * n`. -/
theorem read_npz_entry_consistent (filename root : String) (store : String → Option Npz)
    (npz : Npz) (f n : Nat) (r : RevEntry)
    (hstore : store (create_path filename root) = some npz)
    (hsh : npz.coords.shape = [f, n, 3])
    (hcwf : npz.coords.data.length = f * n * 3)
    (hfl : npz.forces.data.length = npz.coords.data.length)
    (hzwf : npz.nuclear_charges.data.length = npz.nuclear_charges.shape.prod)
    (hok : read_npz_entry filename root store = .ok r) :
    r.atomic_inputs.length = f * n ∧ r.forces.length = f * n ∧ r.n_atoms.sum = f * n := by
  unfold read_npz_entry at hok
  simp only [hstore, hsh] at hok
  cases htraj : trajectories filename with
  | none => rw [htraj] at hok; simp at hok
  | some traj =>
      rw [htraj] at hok
      cases hes : npz.energies.shape with
      | nil => rw [hes] at hok; simp at hok
      | cons e0 erest =>
          rw [hes] at hok
          cases hcf : chunk3 npz.forces.data with
          | none => rw [hcf] at hok; simp at hok
          | some frows =>
              rw [hcf] at hok
              cases hsai : shape_atom_inputs npz.coords npz.nuclear_charges with
              | error e => rw [hsai] at hok; simp at hok
              | ok ai =>
                  rw [hsai] at hok
                  cases hcs : npz.nuclear_charges.shape with
                  | nil => rw [hcs] at hok; simp at hok
                  | cons m tl =>
                      rw [hcs] at hok
                      obtain ⟨m2, reshaped, hspec, hchunk, hflat, hailen⟩ :=
                        shape_atom_inputs_ok npz.coords npz.nuclear_charges ai f n hsh hsai
                      have hmtl : m = m2 := by
                        have htmp := hspec
                        rw [hcs] at htmp
                        simp at htmp
                        exact htmp.1
                      have hdata : npz.nuclear_charges.data.length = m2 := by
                        rw [hzwf, hspec]
                        simp
                      have hresh : 3 * reshaped.length = f * n * 3 := by
                        rw [← chunk3_length _ _ hchunk, hcwf]
                      have hfrows : 3 * frows.length = f * n * 3 := by
                        rw [← chunk3_length _ _ hcf, hfl, hcwf]
                      have hreshlen : reshaped.length = f * n := by
                        have h3 : 3 * reshaped.length = 3 * (f * n) := by rw [hresh]; ring
                        exact Nat.eq_of_mul_eq_mul_left (by norm_num) h3
                      have hfrowslen : frows.length = f * n := by
                        have h3 : 3 * frows.length = 3 * (f * n) := by rw [hfrows]; ring
                        exact Nat.eq_of_mul_eq_mul_left (by norm_num) h3
                      cases hok
                      refine ⟨?_, ?_, ?_⟩
                      · show ai.length = f * n
                        rw [hailen]
                        exact hreshlen
                      · show (frows.map (fun row => row.map (fun q => [q]))).length = f * n
                        rw [List.length_map]
                        exact hfrowslen
                      · show (List.replicate f m).sum = f * n
                        rw [sum_replicate_nat, hmtl]
                        calc f * m2 = f * npz.nuclear_charges.data.length := by rw [hdata]
                          _ = reshaped.length := hflat
                          _ = f * n := hreshlen

/-! ## Concrete witnesses for C9 and C10 -/

/-- The record `extract_entry` builds from `d0` with no force methods. -/
def entryC9 : Entry :=
  { name := "rec0", subset := "sub", energies := [5],
    atomic_inputs := [[1, 0, 0, 0, 0], [8, 0, 1, 0, 0]],
    n_atoms := [2], forces := none }

/-- A well-formed two-atom xyz record in the Metcalf format. -/
def contentC9 : String := "2\nmol,1.0,2.0,x\nH 0.0 0.0 0.0\nO 1.5 0.0 0.0"

/-- The record `content_to_xyz` builds from `contentC9`. -/
def itemC9 : MetcalfItem :=
  { n_atoms := [2], subset := ["metcalf"], energies := ["1.0", "2.0"],
    atomic_inputs := [[1, 0, 0, 0, 0], [8, 0, mkRat 3 2, 0, 0]],
    name := ["mol"], n_atoms_ptr := [-1] }

/-- A one-frame, two-atom coordinate array. -/
def coordsC9 : Arr := { data := [0, 0, 0, 1, 1, 1], shape := [1, 2, 3] }

/-- The matching species array. -/
def speciesC9 : Arr := { data := [6, 8], shape := [2] }

/-- Witness for C9 at concrete inputs of all three adapter helpers. -/
theorem charge_column_zero_witness :
    (∀ row ∈ entryC9.atomic_inputs, row.getD 1 9 = 0) ∧
    (∀ row ∈ itemC9.atomic_inputs, row.getD 1 9 = 0) ∧
    (∀ row ∈ [[(6 : ℚ), 0, 0, 0, 0], [8, 0, 1, 1, 1]], row.getD 1 9 = 0) :=
  ⟨charge_column_zero.1 d0 0 (some "sub") ["E0"] [] entryC9 (by decide),
   charge_column_zero.2.1 contentC9 "metcalf" itemC9 (by decide),
   charge_column_zero.2.2 coordsC9 speciesC9 [[(6 : ℚ), 0, 0, 0, 0], [8, 0, 1, 1, 1]]
     (by decide)⟩

/-- A one-frame, two-atom ethanol-named npz archive. -/
def npzC10 : Npz :=
  { nuclear_charges := { data := [6, 8], shape := [2] }
    coords := { data := [0, 0, 0, 1, 1, 1], shape := [1, 2, 3] }
    energies := { data := [10], shape := [1] }
    forces := { data := [1, 2, 3, 4, 5, 6], shape := [1, 2, 3] } }

/-- A store holding `npzC10` at the path of the ethanol trajectory. -/
def storeC10 : String → Option Npz :=
  fun p => if p = create_path "rmd17_ethanol" "/c" then some npzC10 else none

/-- The record `read_npz_entry` builds from `npzC10`. -/
def revC10 : RevEntry :=
  { name := ["CCO"], subset := ["rmd17_ethanol"],
    energies := { data := [10], shape := [1, 1] },
    forces := [[[1], [2], [3]], [[4], [5], [6]]],
    atomic_inputs := [[6, 0, 0, 0, 0], [8, 0, 1, 1, 1]],
    n_atoms := [2] }

/-- Witness for C10 at the concrete archive `npzC10`. -/
theorem read_npz_entry_consistent_witness :
    revC10.atomic_inputs.length = 1 * 2 ∧ revC10.forces.length = 1 * 2 ∧
      revC10.n_atoms.sum = 1 * 2 :=
  read_npz_entry_consistent "rmd17_ethanol" "/c" storeC10 npzC10 1 2 revC10
    (by decide) (by decide) (by decide) (by decide) (by decide) (by decide)

end OpenQDC
